import Mathlib

/-
Verification of the ONNX Runtime modeling layer (modeling_ort.py /
modeling_seq2seq.py): a shallow embedding of the IO-binding buffer planning,
the encoder/decoder/decoder-with-past pipeline, cache flatten/regroup, beam
reordering, and the standalone task runners, together with proofs of the
specified properties.

Modeling conventions:
- A tensor is its logical shape together with flat row-major data; element
  types (dtype) are not modeled since no specified property depends on them.
- An inference session is its declared input/output name lists, its provider
  list, and an opaque `run` function from named inputs to the outputs in
  declaration order.  Device placement and host/device copies are value
  preserving and therefore dropped.
- A pre-allocated output buffer is modeled by its element count (the product
  of the allocated shape); `bufferView` models writing the engine's output
  into the buffer followed by `torch.Tensor.view` with a possible -1
  (inferred) dimension.
- Python exceptions (attribute errors on `None`, failed lookups, index
  errors) are modeled by `Option`/`Except` failure.
-/

set_option autoImplicit false

namespace ORT

universe u

/-- A tensor: logical shape plus flat row-major data.  Element type is not
modeled; the payload is `Int`. -/
structure Tensor where
  shape : List Nat
  data : List Int
deriving DecidableEq, Repr

/-- Well-formedness: the flat data has exactly as many elements as the shape
describes. -/
def Tensor.wf (t : Tensor) : Prop := t.data.length = t.shape.prod

instance (t : Tensor) : Decidable t.wf :=
  inferInstanceAs (Decidable (t.data.length = t.shape.prod))

/-- Models `torch.Tensor.size(i)`. -/
def Tensor.size (t : Tensor) (i : Nat) : Nat := t.shape.getD i 0

/-- Row extent of the non-batch axes: the number of elements in one slice
along axis 0. -/
def Tensor.rowSize (t : Tensor) : Nat := (t.shape.drop 1).prod

/-- The `k`-th slice of `t` along axis 0, as flat data. -/
def Tensor.batchRow (t : Tensor) (k : Nat) : List Int :=
  (t.data.drop (k * t.rowSize)).take t.rowSize

/-- Models `torch.Tensor.index_select(0, idx)`: re-index axis 0 by `idx`. -/
def indexSelect0 (t : Tensor) (idx : List Nat) : Tensor :=
  { shape := idx.length :: t.shape.drop 1
    data := (idx.map (fun i => t.batchRow i)).flatten }

/-- Models the slice `x[:, -1:]` on a 2-D tensor of shape (batch, seq). -/
def sliceLastCol (t : Tensor) : Tensor :=
  { shape := [t.size 0, 1]
    data := (List.range (t.size 0)).map
      (fun i => t.data.getD (i * t.size 1 + (t.size 1 - 1)) 0) }

/-- Substring test used for the `".key" in name` checks of the source. -/
def containsSub (s pat : String) : Bool :=
  (List.range (s.toList.length + 1)).any
    (fun i => pat.toList.isPrefixOf (s.toList.drop i))

/-- Models `".key" in key or ".value" in key`, the predicate selecting the
key/value cache tensor names among a session's input/output names. -/
def isKVName (s : String) : Bool := containsSub s ".key" || containsSub s ".value"

/-- Models the regrouping `tuple(pkv[i : i + 4] for i in range(0, len(pkv), 4))`
of a flat cache into per-layer 4-tuples (a trailing group of fewer than four
elements is kept short, as the Python slice is). -/
def chunk4 {α : Type u} : List α → List (List α)
  | [] => []
  | [a] => [[a]]
  | [a, b] => [[a, b]]
  | [a, b, c] => [[a, b, c]]
  | a :: b :: c :: d :: rest => [a, b, c, d] :: chunk4 rest

/-- Models the flattening
`[past_key_value for pkv_per_layer in past_key_values for past_key_value in pkv_per_layer]`. -/
def flattenCache {α : Type u} (past : List (List α)) : List α := past.flatten

/-- Mapping a fallible function over a list, failing as soon as one element
fails: the shape of the Python output-collection loops. -/
def optListMap {α β : Type u} (f : α → Option β) : List α → Option (List β)
  | [] => some []
  | a :: l =>
    match f a with
    | none => none
    | some b =>
      match optListMap f l with
      | none => none
      | some bs => some (b :: bs)

/-- Models `torch.Tensor.view` shape inference: a -1 entry is replaced by the
element count divided by the product of the known entries. -/
def inferDims (numel : Nat) (shape : List Int) : List Nat :=
  let known := (shape.filter (fun d => !(d == -1))).foldl (fun a d => a * d.toNat) 1
  shape.map (fun d => if d == -1 then numel / known else d.toNat)

/-- Models the engine writing an output of `data` into a pre-allocated buffer
of `numel` elements followed by `buffer.view(recorded)`: fails when the output
does not fill the buffer exactly or when the inferred view shape does not
account for every element. -/
def bufferView (numel : Nat) (data : List Int) (recorded : List Int) : Option Tensor :=
  if data.length = numel ∧ (inferDims numel recorded).prod = numel then
    some { shape := inferDims numel recorded, data := data }
  else none

/-- An inference session: declared input/output names (in declaration order),
active providers, and the opaque graph as a function from named inputs to
outputs in declaration order. -/
structure Session where
  inputNames : List String
  outputNames : List String
  providers : List String
  run : List (String × Tensor) → List Tensor

/-- Models the `{key.name: idx for idx, key in enumerate(...)}` tables: the
index of a name in a declaration list (for a duplicated name, the last index
wins, as in a Python dict comprehension). -/
def nameIndex (names : List String) (n : String) : Option Nat :=
  names.enum.foldl (fun acc p => if p.2 = n then some p.1 else acc) none

/-- One planned output binding: the output name, the allocated buffer shape
(the buffer holds `alloc.prod` elements), and the shape recorded in
`output_shapes` for reporting the buffer back to the caller. -/
structure OutputEntry where
  name : String
  alloc : List Nat
  recorded : List Int
deriving DecidableEq, Repr

/-- The result of a `prepare_io_binding`: the named inputs bound for the
invocation and the planned output bindings (modeling the parallel
`output_shapes` / `output_buffers` dictionaries). -/
structure IoPlan where
  boundInputs : List (String × Tensor)
  outputEntries : List OutputEntry
deriving DecidableEq, Repr

/-- First entry with the given name (the planned dictionaries have unique
keys since session output names are unique). -/
def lookupEntry (entries : List OutputEntry) (name : String) : Option OutputEntry :=
  entries.find? (fun e => e.name == name)

def natsToInts (l : List Nat) : List Int := l.map Int.ofNat

/-- Models a `self.name_to_np_type[name]` lookup: the map is built by
TypeHelper.get_io_numpy_type_map over the session's declared inputs and
outputs, so the lookup succeeds exactly for declared names and raises
KeyError (here `none`) otherwise.  The element type itself is not modeled. -/
def nameToNpType (s : Session) (name : String) : Option Unit :=
  if name ∈ s.inputNames ++ s.outputNames then some () else none

/-- The relevant fields of the model's normalized configuration. -/
structure NormalizedConfig where
  hidden_size : Nat
  num_attention_heads : Nat
  vocab_size : Nat
deriving DecidableEq, Repr

/-- ORTDecoder: a decoder (with or without past) session plus the
configuration and flags its forward pass consults. -/
structure ORTDecoder where
  session : Session
  config : NormalizedConfig
  use_io_binding : Bool
  deviceIsCuda : Bool

/-- Models `self.key_value_input_names`. -/
def ORTDecoder.key_value_input_names (d : ORTDecoder) : List String :=
  d.session.inputNames.filter isKVName

/-- Models `self.key_value_output_names`. -/
def ORTDecoder.key_value_output_names (d : ORTDecoder) : List String :=
  d.session.outputNames.filter isKVName

/-- ORTDecoder.prepare_output_buffer: the planned shape for one named output
(`loss`, `logits`, or a key/value cache tensor).  Returns the logical shape;
the allocated buffer holds the product of the shape.  `none` models the
Python failure when a needed shape parameter is absent or the name matches no
branch. -/
def ORTDecoder.prepare_output_buffer (d : ORTDecoder) (output_name : String)
    (batch_size sequence_length encoder_sequence_length past_sequence_length : Option Nat)
    (is_self_attn : Bool) : Option (List Nat) :=
  if output_name = "loss" then
    some [1]
  else if output_name = "logits" then do
    let b ← batch_size
    let s ← sequence_length
    some [b, s, d.config.vocab_size]
  else if isKVName output_name then
    let num_attention_heads := d.config.num_attention_heads
    let embed_size_per_head := d.config.hidden_size / num_attention_heads
    if is_self_attn then do
      let b ← batch_size
      let s ← sequence_length
      let s := match past_sequence_length with
        | some p => s + p
        | none => s
      some [b, num_attention_heads, s, embed_size_per_head]
    else do
      let b ← batch_size
      let e ← encoder_sequence_length
      some [b, num_attention_heads, e, embed_size_per_head]
  else none

/-- The input-binding part of ORTDecoder.prepare_io_binding: `input_ids`
always; `encoder_attention_mask`, `encoder_hidden_states` and `labels` only
when declared by the session; the flattened past zipped against the declared
key/value input names when a past is given. -/
def ORTDecoder.bindInputs (d : ORTDecoder) (input_ids encoder_hidden_states : Tensor)
    (encoder_attention_mask : Option Tensor) (past_key_values : Option (List Tensor))
    (labels : Option Tensor) : Option (List (String × Tensor)) := do
  let ins := [("input_ids", input_ids)]
  let ins ← if "encoder_attention_mask" ∈ d.session.inputNames then do
      let m ← encoder_attention_mask
      pure (ins ++ [("encoder_attention_mask", m)])
    else pure ins
  let ins := if "encoder_hidden_states" ∈ d.session.inputNames then
      ins ++ [("encoder_hidden_states", encoder_hidden_states)]
    else ins
  let ins := match past_key_values with
    | some flat => ins ++ d.key_value_input_names.zip flat
    | none => ins
  let ins ← if "labels" ∈ d.session.inputNames then do
      let lb ← labels
      pure (ins ++ [("labels", lb)])
    else pure ins
  pure ins

/-- One turn of the inner binding loop (`for i in range(2)`): plan the buffer
of the self-attention output `chunk[i]` and of the cross-attention output
`chunk[i + 2]`; the recorded shape of each replaces its axis 2 with -1. -/
def ORTDecoder.bindSelfAndCross (d : ORTDecoder) (batch_size sequence_length : Nat)
    (encoder_sequence_length : Nat) (past_sequence_length : Option Nat)
    (chunk : List String) (i : Nat) : Option (List OutputEntry) := do
  let self_name ← chunk.get? i
  let self_pkv_shape ← d.prepare_output_buffer self_name (some batch_size)
    (some sequence_length) none past_sequence_length true
  let cross_name ← chunk.get? (i + 2)
  let cross_pkv_shape ← d.prepare_output_buffer cross_name (some batch_size)
    none (some encoder_sequence_length) none false
  pure [{ name := self_name, alloc := self_pkv_shape,
          recorded := (natsToInts self_pkv_shape).take 2 ++ [-1] ++ (natsToInts self_pkv_shape).drop 3 },
        { name := cross_name, alloc := cross_pkv_shape,
          recorded := (natsToInts cross_pkv_shape).take 2 ++ [-1] ++ (natsToInts cross_pkv_shape).drop 3 }]

/-- The key/value output-binding loop over the per-layer name chunks. -/
def ORTDecoder.bindKvOutputs (d : ORTDecoder) (batch_size sequence_length : Nat)
    (encoder_sequence_length : Nat) (past_sequence_length : Option Nat) :
    List (List String) → Option (List OutputEntry)
  | [] => some []
  | chunk :: rest => do
    let e0 ← d.bindSelfAndCross batch_size sequence_length encoder_sequence_length
      past_sequence_length chunk 0
    let e1 ← d.bindSelfAndCross batch_size sequence_length encoder_sequence_length
      past_sequence_length chunk 1
    let es ← d.bindKvOutputs batch_size sequence_length encoder_sequence_length
      past_sequence_length rest
    pure (e0 ++ e1 ++ es)

/-- Models `past_key_values[0].size(2) if past_key_values else None`: the
past sequence length read off the first flat cache tensor (`None` also for an
empty flat cache, matching Python truthiness). -/
def pastLenOf (past_key_values : Option (List Tensor)) : Option Nat :=
  match past_key_values with
  | some (t :: _) => some (t.size 2)
  | _ => none

/-- The `logits` and optional `loss` output bindings of
ORTDecoder.prepare_io_binding. -/
def ORTDecoder.planBaseEntries (d : ORTDecoder) (logits_shape : List Nat) :
    Option (List OutputEntry) :=
  let entries := [{ name := "logits", alloc := logits_shape,
                    recorded := natsToInts logits_shape : OutputEntry }]
  if "loss" ∈ d.session.outputNames then do
    let loss_shape ← d.prepare_output_buffer "loss" none none none none false
    pure (entries ++ [{ name := "loss", alloc := loss_shape,
                        recorded := natsToInts loss_shape : OutputEntry }])
  else pure entries

/-- ORTDecoder.prepare_io_binding: bind the inputs, then plan the `logits`,
optional `loss`, and per-layer key/value output buffers.  `past_key_values`
is the already-flattened past. -/
def ORTDecoder.prepare_io_binding (d : ORTDecoder) (input_ids encoder_hidden_states : Tensor)
    (encoder_attention_mask : Option Tensor) (past_key_values : Option (List Tensor))
    (labels : Option Tensor) : Option IoPlan := do
  let ins ← d.bindInputs input_ids encoder_hidden_states encoder_attention_mask
    past_key_values labels
  let logits_shape ← d.prepare_output_buffer "logits" (some (input_ids.size 0))
    (some (input_ids.size 1)) none none false
  let entries ← d.planBaseEntries logits_shape
  let past_sequence_length := pastLenOf past_key_values
  let kv ← d.bindKvOutputs (input_ids.size 0) (input_ids.size 1)
    (encoder_hidden_states.size 1) past_sequence_length
    (chunk4 d.key_value_output_names)
  pure { boundInputs := ins, outputEntries := entries ++ kv }

/-- The `onnx_inputs` dictionary of the no-binding branch of
ORTDecoder.forward (duplicating, as the source does, the gating of the
binding branch). -/
def ORTDecoder.fallbackInputs (d : ORTDecoder) (input_ids encoder_hidden_states : Tensor)
    (encoder_attention_mask : Option Tensor) (past_key_values : Option (List Tensor))
    (labels : Option Tensor) : Option (List (String × Tensor)) := do
  let ins := [("input_ids", input_ids)]
  let ins ← if "encoder_attention_mask" ∈ d.session.inputNames then do
      let m ← encoder_attention_mask
      pure (ins ++ [("encoder_attention_mask", m)])
    else pure ins
  let ins := if "encoder_hidden_states" ∈ d.session.inputNames then
      ins ++ [("encoder_hidden_states", encoder_hidden_states)]
    else ins
  let ins := match past_key_values with
    | some flat => ins ++ d.key_value_input_names.zip flat
    | none => ins
  let ins ← if "labels" ∈ d.session.inputNames then do
      let lb ← labels
      pure (ins ++ [("labels", lb)])
    else pure ins
  pure ins

/-- Output of one decoder step (and of the surrounding conditional-generation
forward): loss (when the session declares it), logits, and the regrouped
per-layer cache. -/
structure Seq2SeqLMOutput where
  loss : Option Tensor
  logits : Tensor
  past_key_values : List (List Tensor)
deriving DecidableEq, Repr

/-- The IO-binding branch of ORTDecoder.forward: plan, invoke, read each
cache output buffer through its recorded (-1) shape, regroup into per-layer
4-tuples, read logits and optional loss. -/
def ORTDecoder.forwardBound (d : ORTDecoder) (input_ids encoder_hidden_states : Tensor)
    (encoder_attention_mask : Option Tensor) (past_key_values : Option (List Tensor))
    (labels : Option Tensor) : Option Seq2SeqLMOutput := do
  let plan ← d.prepare_io_binding input_ids encoder_hidden_states
    encoder_attention_mask past_key_values labels
  let outs := d.session.run plan.boundInputs
  let kvFlat ← optListMap (fun name => do
      let e ← lookupEntry plan.outputEntries name
      let i ← nameIndex d.session.outputNames name
      let out ← outs.get? i
      bufferView e.alloc.prod out.data e.recorded) d.key_value_output_names
  let pkv := chunk4 kvFlat
  let eLogits ← lookupEntry plan.outputEntries "logits"
  let iLogits ← nameIndex d.session.outputNames "logits"
  let outLogits ← outs.get? iLogits
  let logits ← bufferView eLogits.alloc.prod outLogits.data eLogits.recorded
  let loss ← if "loss" ∈ d.session.outputNames then do
      let eLoss ← lookupEntry plan.outputEntries "loss"
      let iLoss ← nameIndex d.session.outputNames "loss"
      let outLoss ← outs.get? iLoss
      let l ← bufferView eLoss.alloc.prod outLoss.data eLoss.recorded
      pure (some l)
    else pure none
  pure { loss := loss, logits := logits, past_key_values := pkv }

/-- The no-binding branch of ORTDecoder.forward: plain `session.run` on host
inputs, outputs fetched by name index, cache regrouped into per-layer
4-tuples. -/
def ORTDecoder.forwardFallback (d : ORTDecoder) (input_ids encoder_hidden_states : Tensor)
    (encoder_attention_mask : Option Tensor) (past_key_values : Option (List Tensor))
    (labels : Option Tensor) : Option Seq2SeqLMOutput := do
  let ins ← d.fallbackInputs input_ids encoder_hidden_states encoder_attention_mask
    past_key_values labels
  let outs := d.session.run ins
  let kvFlat ← optListMap (fun name => do
      let i ← nameIndex d.session.outputNames name
      outs.get? i) d.key_value_output_names
  let pkv := chunk4 kvFlat
  let iLogits ← nameIndex d.session.outputNames "logits"
  let logits ← outs.get? iLogits
  let loss ← if "loss" ∈ d.session.outputNames then do
      let iLoss ← nameIndex d.session.outputNames "loss"
      let l ← outs.get? iLoss
      pure (some l)
    else pure none
  pure { loss := loss, logits := logits, past_key_values := pkv }

/-- ORTDecoder.forward: flatten the nested past, then take the IO-binding
branch on a CUDA device with binding enabled, the host fallback otherwise. -/
def ORTDecoder.forward (d : ORTDecoder) (input_ids encoder_hidden_states : Tensor)
    (encoder_attention_mask : Option Tensor)
    (past_key_values : Option (List (List Tensor)))
    (labels : Option Tensor) : Option Seq2SeqLMOutput :=
  let pastFlat := past_key_values.map flattenCache
  if d.deviceIsCuda && d.use_io_binding then
    d.forwardBound input_ids encoder_hidden_states encoder_attention_mask pastFlat labels
  else
    d.forwardFallback input_ids encoder_hidden_states encoder_attention_mask pastFlat labels

/-- ORTEncoder: the encoder session plus configuration and flags. -/
structure ORTEncoder where
  session : Session
  config : NormalizedConfig
  use_io_binding : Bool
  deviceIsCuda : Bool

/-- ORTEncoder.prepare_output_buffer: the `last_hidden_state` buffer shape
(batch_size, sequence_length, hidden_size). -/
def ORTEncoder.prepare_output_buffer (e : ORTEncoder) (batch_size sequence_length : Nat) :
    List Nat :=
  [batch_size, sequence_length, e.config.hidden_size]

/-- ORTEncoder.prepare_io_binding: bind `input_ids` always and
`attention_mask` only when the session declares it; each bind resolves the
name's element type from the declared-signature map first; plan the
`last_hidden_state` output buffer. -/
def ORTEncoder.prepare_io_binding (e : ORTEncoder)
    (input_ids attention_mask : Option Tensor) : Option IoPlan := do
  let ii ← input_ids
  let _ ← nameToNpType e.session "input_ids"
  let ins := [("input_ids", ii)]
  let ins ← if "attention_mask" ∈ e.session.inputNames then do
      let am ← attention_mask
      let _ ← nameToNpType e.session "attention_mask"
      pure (ins ++ [("attention_mask", am)])
    else pure ins
  let output_shape := e.prepare_output_buffer (ii.size 0) (ii.size 1)
  let _ ← nameToNpType e.session "last_hidden_state"
  pure { boundInputs := ins,
         outputEntries := [{ name := "last_hidden_state", alloc := output_shape,
                             recorded := natsToInts output_shape }] }

/-- The `onnx_inputs` dictionary of the no-binding branch of
ORTEncoder.forward. -/
def ORTEncoder.fallbackInputs (e : ORTEncoder)
    (input_ids attention_mask : Option Tensor) : Option (List (String × Tensor)) := do
  let ii ← input_ids
  let ins := [("input_ids", ii)]
  let ins ← if "attention_mask" ∈ e.session.inputNames then do
      let am ← attention_mask
      pure (ins ++ [("attention_mask", am)])
    else pure ins
  pure ins

/-- IO-binding branch of ORTEncoder.forward. -/
def ORTEncoder.forwardBound (e : ORTEncoder)
    (input_ids attention_mask : Option Tensor) : Option Tensor := do
  let plan ← e.prepare_io_binding input_ids attention_mask
  let outs := e.session.run plan.boundInputs
  let ent ← lookupEntry plan.outputEntries "last_hidden_state"
  let i ← nameIndex e.session.outputNames "last_hidden_state"
  let out ← outs.get? i
  bufferView ent.alloc.prod out.data ent.recorded

/-- No-binding branch of ORTEncoder.forward. -/
def ORTEncoder.forwardFallback (e : ORTEncoder)
    (input_ids attention_mask : Option Tensor) : Option Tensor := do
  let ins ← e.fallbackInputs input_ids attention_mask
  let outs := e.session.run ins
  let i ← nameIndex e.session.outputNames "last_hidden_state"
  outs.get? i

/-- ORTEncoder.forward: returns the encoder `last_hidden_state`. -/
def ORTEncoder.forward (e : ORTEncoder)
    (input_ids attention_mask : Option Tensor) : Option Tensor :=
  if e.deviceIsCuda && e.use_io_binding then
    e.forwardBound input_ids attention_mask
  else
    e.forwardFallback input_ids attention_mask

/-- ORTModelForSeq2SeqLM: encoder, cache-less decoder, and the optional
decoder-with-past. -/
structure ORTModelForSeq2SeqLM where
  encoder : ORTEncoder
  decoder : ORTDecoder
  decoder_with_past : Option ORTDecoder

/-- Models `self.use_cache = decoder_with_past_session is not None`. -/
def ORTModelForSeq2SeqLM.use_cache (m : ORTModelForSeq2SeqLM) : Bool :=
  m.decoder_with_past.isSome

/-- ORTModelForConditionalGeneration.__init__ as far as session wiring is
concerned: `use_io_binding` is forced off for TensorrtExecutionProvider, and
the decoder-with-past runner exists exactly when its session was provided. -/
def mkORTModelForSeq2SeqLM (encoder_session decoder_session : Session)
    (decoder_with_past_session : Option Session) (config : NormalizedConfig)
    (use_io_binding : Bool) (deviceIsCuda : Bool) : ORTModelForSeq2SeqLM :=
  let use_io_binding :=
    if "TensorrtExecutionProvider" ∈ encoder_session.providers && use_io_binding then
      false
    else use_io_binding
  { encoder := { session := encoder_session, config := config,
                 use_io_binding := use_io_binding, deviceIsCuda := deviceIsCuda }
    decoder := { session := decoder_session, config := config,
                 use_io_binding := use_io_binding, deviceIsCuda := deviceIsCuda }
    decoder_with_past := decoder_with_past_session.map
      (fun s => { session := s, config := config,
                  use_io_binding := use_io_binding, deviceIsCuda := deviceIsCuda }) }

/-- The `encoder_outputs if encoder_outputs is not None else self.encoder(...)`
step of ORTModelForSeq2SeqLM.forward (the value is the encoder
`last_hidden_state`). -/
def ORTModelForSeq2SeqLM.resolveEncoderOutputs (m : ORTModelForSeq2SeqLM)
    (input_ids attention_mask encoder_outputs : Option Tensor) : Option Tensor :=
  match encoder_outputs with
  | some e => some e
  | none => m.encoder.forward input_ids attention_mask

/-- ORTModelForSeq2SeqLM.forward: encode if needed, then decode with the
cache-less decoder when no past is given or no decoder-with-past session was
loaded, and with the decoder-with-past on the last token otherwise. -/
def ORTModelForSeq2SeqLM.forward (m : ORTModelForSeq2SeqLM)
    (input_ids attention_mask : Option Tensor) (decoder_input_ids : Option Tensor)
    (encoder_outputs : Option Tensor)
    (past_key_values : Option (List (List Tensor)))
    (labels : Option Tensor) : Option Seq2SeqLMOutput := do
  let last_hidden_state ← m.resolveEncoderOutputs input_ids attention_mask encoder_outputs
  let dec_ids ← decoder_input_ids
  let decoder_outputs ←
    match past_key_values, m.decoder_with_past with
    | some past, some dwp =>
        dwp.forward (sliceLastCol dec_ids) last_hidden_state attention_mask
          (some past) labels
    | _, _ =>
        m.decoder.forward dec_ids last_hidden_state attention_mask none labels
  pure { loss := decoder_outputs.loss, logits := decoder_outputs.logits,
         past_key_values := decoder_outputs.past_key_values }

/-- ORTModelForSeq2SeqLM._reorder_cache: re-index the two self-attention
tensors of every layer along the batch axis by `beam_idx`; the remaining
(cross-attention) tensors pass through unchanged.
(ORTModelForSpeechSeq2Seq._reorder_cache is the identical code.) -/
def ORTModelForSeq2SeqLM._reorder_cache (past : List (List Tensor)) (beam_idx : List Nat) :
    List (List Tensor) :=
  past.map (fun layer_past =>
    (layer_past.take 2).map (fun past_state => indexSelect0 past_state beam_idx)
      ++ layer_past.drop 2)

/-- ORTModelForSequenceClassification: a single-session runner. -/
structure ORTModelForSequenceClassification where
  session : Session
  num_labels : Nat
  use_io_binding : Bool
  deviceIsCuda : Bool

/-- ORTModelForSequenceClassification.prepare_logits_buffer: shape
(batch_size, num_labels); the buffer holds the product of the shape. -/
def ORTModelForSequenceClassification.prepare_logits_buffer
    (batch_size num_labels : Nat) : List Nat :=
  [batch_size, num_labels]

/-- Models `if token_type_ids is not None: ... onnx_inputs["token_type_ids"] = ...`
on the fallback path: include the entry exactly when the tensor was supplied. -/
def withTokenTypeIds (ins : List (String × Tensor)) (token_type_ids : Option Tensor) :
    List (String × Tensor) :=
  match token_type_ids with
  | some tt => ins ++ [("token_type_ids", tt)]
  | none => ins

/-- Models `if token_type_ids is not None: ... bind_input("token_type_ids", ...)`
on the bound path: when the tensor is supplied, its element type is resolved
from `self.name_to_np_type` before binding — a KeyError for an undeclared
name, so an undeclared `token_type_ids` is never bound. -/
def bindTokenTypeIds (s : Session) (ins : List (String × Tensor))
    (token_type_ids : Option Tensor) : Option (List (String × Tensor)) :=
  match token_type_ids with
  | some tt => do
      let _ ← nameToNpType s "token_type_ids"
      pure (ins ++ [("token_type_ids", tt)])
  | none => pure ins

/-- ORTModelForSequenceClassification.prepare_io_binding: `input_ids` and
`attention_mask` are always bound (a missing one fails); `token_type_ids` is
bound exactly when it is supplied; every bind first resolves the name's
element type from the declared-signature map. -/
def ORTModelForSequenceClassification.prepare_io_binding
    (m : ORTModelForSequenceClassification)
    (input_ids attention_mask token_type_ids : Option Tensor) : Option IoPlan := do
  let ii ← input_ids
  let _ ← nameToNpType m.session "input_ids"
  let am ← attention_mask
  let _ ← nameToNpType m.session "attention_mask"
  let ins := [("input_ids", ii), ("attention_mask", am)]
  let ins ← bindTokenTypeIds m.session ins token_type_ids
  let logits_shape := ORTModelForSequenceClassification.prepare_logits_buffer
    (ii.size 0) m.num_labels
  let _ ← nameToNpType m.session "logits"
  pure { boundInputs := ins,
         outputEntries := [{ name := "logits", alloc := logits_shape,
                             recorded := natsToInts logits_shape }] }

/-- The `onnx_inputs` dictionary of the no-binding branch of
ORTModelForSequenceClassification.forward: `input_ids` and `attention_mask`
always; `token_type_ids` exactly when supplied. -/
def ORTModelForSequenceClassification.fallbackInputs
    (m : ORTModelForSequenceClassification)
    (input_ids attention_mask token_type_ids : Option Tensor) :
    Option (List (String × Tensor)) := do
  let ii ← input_ids
  let am ← attention_mask
  let ins := withTokenTypeIds [("input_ids", ii), ("attention_mask", am)] token_type_ids
  pure ins

/-- IO-binding branch of ORTModelForSequenceClassification.forward; the
result is the logits tensor. -/
def ORTModelForSequenceClassification.forwardBound
    (m : ORTModelForSequenceClassification)
    (input_ids attention_mask token_type_ids : Option Tensor) : Option Tensor := do
  let plan ← m.prepare_io_binding input_ids attention_mask token_type_ids
  let outs := m.session.run plan.boundInputs
  let ent ← lookupEntry plan.outputEntries "logits"
  let i ← nameIndex m.session.outputNames "logits"
  let out ← outs.get? i
  bufferView ent.alloc.prod out.data ent.recorded

/-- No-binding branch of ORTModelForSequenceClassification.forward. -/
def ORTModelForSequenceClassification.forwardFallback
    (m : ORTModelForSequenceClassification)
    (input_ids attention_mask token_type_ids : Option Tensor) : Option Tensor := do
  let ins ← m.fallbackInputs input_ids attention_mask token_type_ids
  let outs := m.session.run ins
  let i ← nameIndex m.session.outputNames "logits"
  outs.get? i

/-- ORTModelForSequenceClassification.forward. -/
def ORTModelForSequenceClassification.forward (m : ORTModelForSequenceClassification)
    (input_ids attention_mask token_type_ids : Option Tensor) : Option Tensor :=
  if m.deviceIsCuda && m.use_io_binding then
    m.forwardBound input_ids attention_mask token_type_ids
  else
    m.forwardFallback input_ids attention_mask token_type_ids

/-- ORTModelForTokenClassification.prepare_logits_buffer: shape
(batch_size, sequence_length, num_labels). -/
def ORTModelForTokenClassification.prepare_logits_buffer
    (batch_size sequence_length num_labels : Nat) : List Nat :=
  [batch_size, sequence_length, num_labels]

/-- ORTModelForMultipleChoice.prepare_logits_buffer: shape
(batch_size, num_choices). -/
def ORTModelForMultipleChoice.prepare_logits_buffer
    (batch_size num_choices : Nat) : List Nat :=
  [batch_size, num_choices]

/-- Error kinds of the custom-task runner: a required dynamically-declared
input missing from the call's keyword arguments (Python `KeyError` from
`kwargs.pop`, the realization of the spec's MissingInputError), or the engine
returning fewer outputs than declared. -/
inductive OrtError where
  | missingInput (name : String)
  | outputIndexOutOfRange
deriving DecidableEq, Repr

/-- ORTModelForCustomTasks: a single-session runner with no binding path. -/
structure ORTModelForCustomTasks where
  session : Session
  use_io_binding : Bool

/-- ORTModelForCustomTasks.__init__ composed with ORTModel.__init__: the base
constructor receives the `use_io_binding` keyword (defaulting to true) and
forces it off for TensorrtExecutionProvider; afterwards the subclass pops the
keyword (defaulting to false) and warns when it was truthy.  Returns the
constructed model and whether the warning was emitted. -/
def ORTModelForCustomTasks.init (session : Session)
    (use_io_binding_kw : Option Bool) : ORTModelForCustomTasks × Bool :=
  let use_io_binding := use_io_binding_kw.getD true
  let use_io_binding :=
    if "TensorrtExecutionProvider" ∈ session.providers && use_io_binding then
      false
    else use_io_binding
  ({ session := session, use_io_binding := use_io_binding },
   use_io_binding_kw.getD false)

/-- Models `kwargs.pop(name)`: the value and the remaining keyword arguments,
or `none` (Python KeyError) when the name is absent. -/
def popKey : List (String × Tensor) → String → Option (Tensor × List (String × Tensor))
  | [], _ => none
  | (k, v) :: rest, n =>
    if k = n then some (v, rest)
    else (popKey rest n).map (fun p => (p.1, (k, v) :: p.2))

/-- The loop of ORTModelForCustomTasks._prepare_onnx_inputs: pop every
declared input name from the keyword arguments in declaration order. -/
def prepareInputsGo : List String → List (String × Tensor) →
    Except OrtError (List (String × Tensor))
  | [], _ => .ok []
  | n :: rest, kwargs =>
    match popKey kwargs n with
    | none => .error (.missingInput n)
    | some (t, kwargs2) => (prepareInputsGo rest kwargs2).map (fun l => (n, t) :: l)

/-- ORTModelForCustomTasks._prepare_onnx_inputs: the required input names are
discovered dynamically from the loaded graph's declared input signature. -/
def ORTModelForCustomTasks._prepare_onnx_inputs (m : ORTModelForCustomTasks)
    (kwargs : List (String × Tensor)) : Except OrtError (List (String × Tensor)) :=
  prepareInputsGo m.session.inputNames kwargs

/-- The loop of ORTModelForCustomTasks._prepare_onnx_outputs over the
enumerated declared output names. -/
def prepareOutputsGo (outs : List Tensor) : List (Nat × String) →
    Except OrtError (List (String × Tensor))
  | [] => .ok []
  | (i, n) :: rest =>
    match outs.get? i with
    | none => .error .outputIndexOutOfRange
    | some t => (prepareOutputsGo outs rest).map (fun l => (n, t) :: l)

/-- ORTModelForCustomTasks._prepare_onnx_outputs: name every returned output
after the graph's declared output signature. -/
def ORTModelForCustomTasks._prepare_onnx_outputs (m : ORTModelForCustomTasks)
    (onnx_outputs : List Tensor) : Except OrtError (List (String × Tensor)) :=
  prepareOutputsGo onnx_outputs m.session.outputNames.enum

/-- ORTModelForCustomTasks.forward: always the host-copy path — convert the
declared inputs, plain `session.run`, convert the declared outputs.  There is
no IO-binding branch. -/
def ORTModelForCustomTasks.forward (m : ORTModelForCustomTasks)
    (kwargs : List (String × Tensor)) : Except OrtError (List (String × Tensor)) :=
  match m._prepare_onnx_inputs kwargs with
  | .error e => .error e
  | .ok onnx_inputs => m._prepare_onnx_outputs (m.session.run onnx_inputs)

/-- The planned entry and the engine's actual output for one output name. -/
def planOutput? (plan : IoPlan) (names : List String) (outs : List Tensor)
    (name : String) : Option (OutputEntry × Tensor) := do
  let e ← lookupEntry plan.outputEntries name
  let i ← nameIndex names name
  let out ← outs.get? i
  pure (e, out)

/-- Consistency of a planned output binding with the graph's actual output:
the output exists, fills the allocated buffer exactly, and its shape is the
one the recorded view shape infers.  This is the well-formedness that binding
a real graph guarantees (the engine rejects a size mismatch). -/
def planConsistentB (plan : IoPlan) (names : List String) (outs : List Tensor)
    (name : String) : Bool :=
  match planOutput? plan names outs name with
  | some (e, out) =>
    out.data.length == e.alloc.prod
      && inferDims e.alloc.prod e.recorded == out.shape
      && (inferDims e.alloc.prod e.recorded).prod == e.alloc.prod
  | none => false

/-- Whether a custom-task call failed because a required input was missing. -/
def isMissingInputError {α : Type} : Except OrtError α → Bool
  | .error (.missingInput _) => true
  | _ => false

/-- The input names actually fed to the graph by a successful input
preparation. -/
def okInputKeys : Except OrtError (List (String × Tensor)) → Option (List String)
  | .ok l => some (l.map Prod.fst)
  | .error _ => none

/-
Concrete witness models: a one-layer decoder, a tiny encoder, a
sequence-classification session and a custom-task session, each with a
constant graph whose outputs have the planned shapes.
-/

def wIds : Tensor := { shape := [1, 1], data := [5] }

def wIds2 : Tensor := { shape := [1, 2], data := [5, 6] }

def wEhs : Tensor := { shape := [1, 1, 1], data := [7] }

def wKv : Tensor := { shape := [1, 1, 1, 1], data := [3] }

def wKv2 : Tensor := { shape := [1, 1, 1, 1], data := [4] }

def wKv3 : Tensor := { shape := [1, 1, 1, 1], data := [5] }

def wKv4 : Tensor := { shape := [1, 1, 1, 1], data := [6] }

def wCfg : NormalizedConfig :=
  { hidden_size := 1, num_attention_heads := 1, vocab_size := 2 }

def wDecSession : Session :=
  { inputNames := ["input_ids", "encoder_hidden_states"]
    outputNames := ["logits", "present.0.decoder.key", "present.0.decoder.value",
                    "present.0.encoder.key", "present.0.encoder.value"]
    providers := ["CPUExecutionProvider"]
    run := fun _ =>
      [{ shape := [1, 1, 2], data := [10, 11] },
       { shape := [1, 1, 1, 1], data := [1] },
       { shape := [1, 1, 1, 1], data := [2] },
       { shape := [1, 1, 1, 1], data := [3] },
       { shape := [1, 1, 1, 1], data := [4] }] }

def wDecoder : ORTDecoder :=
  { session := wDecSession, config := wCfg, use_io_binding := true, deviceIsCuda := true }

def wEncSession : Session :=
  { inputNames := ["input_ids"]
    outputNames := ["last_hidden_state"]
    providers := ["CPUExecutionProvider"]
    run := fun _ => [{ shape := [1, 1, 1], data := [7] }] }

def wEncoder : ORTEncoder :=
  { session := wEncSession, config := wCfg, use_io_binding := false, deviceIsCuda := false }

def wSeq2Seq : ORTModelForSeq2SeqLM :=
  mkORTModelForSeq2SeqLM wEncSession wDecSession (some wDecSession) wCfg false false

def wDecoderFallback : ORTDecoder :=
  { session := wDecSession, config := wCfg, use_io_binding := false, deviceIsCuda := false }

def wClsSession : Session :=
  { inputNames := ["input_ids", "attention_mask"]
    outputNames := ["logits"]
    providers := ["CPUExecutionProvider"]
    run := fun _ => [{ shape := [1, 2], data := [8, 9] }] }

def wCls : ORTModelForSequenceClassification :=
  { session := wClsSession, num_labels := 2, use_io_binding := true, deviceIsCuda := true }

def wCustomSession : Session :=
  { inputNames := ["input_ids", "attention_mask"]
    outputNames := ["pooler_output"]
    providers := ["CPUExecutionProvider"]
    run := fun _ => [{ shape := [1, 1], data := [9] }] }

def wCustom : ORTModelForCustomTasks :=
  { session := wCustomSession, use_io_binding := false }

def wB4a : Tensor := { shape := [4, 1], data := [100, 101, 102, 103] }

def wB4b : Tensor := { shape := [4, 1], data := [110, 111, 112, 113] }

def wB4c : Tensor := { shape := [4, 1], data := [120, 121, 122, 123] }

def wB4d : Tensor := { shape := [4, 1], data := [130, 131, 132, 133] }

def wPlanC6 : IoPlan :=
  (wDecoder.prepare_io_binding wIds wEhs none none none).getD
    { boundInputs := [], outputEntries := [] }

def wEntryC6 : OutputEntry :=
  wPlanC6.outputEntries.getD 1 { name := "", alloc := [], recorded := [] }

def wPlanCls : IoPlan :=
  (wCls.prepare_io_binding (some wIds) (some wIds2) none).getD
    { boundInputs := [], outputEntries := [] }

/-
Helper lemmas.
-/

theorem chunk4_flattenCache {α : Type u} :
    ∀ past : List (List α), (∀ layer ∈ past, layer.length = 4) →
      chunk4 (flattenCache past) = past := by
  intro past
  induction past with
  | nil => intro _; rfl
  | cons layer rest ih =>
    intro h
    have hl : layer.length = 4 := h layer (List.mem_cons_self _ _)
    match layer, hl with
    | [a, b, c, d], _ =>
      have hrest := ih (fun l hm => h l (List.mem_cons_of_mem _ hm))
      show chunk4 (a :: b :: c :: d :: flattenCache rest) = _
      exact congrArg (List.cons [a, b, c, d]) hrest

theorem flatten_drop_take {rows : List (List Int)} {n : Nat}
    (h : ∀ r ∈ rows, r.length = n) :
    ∀ k, k < rows.length → ((rows.flatten.drop (k * n)).take n) = rows.getD k [] := by
  induction rows with
  | nil => intro k hk; simp at hk
  | cons r rest ih =>
    intro k hk
    have hr : r.length = n := h r (List.mem_cons_self _ _)
    cases k with
    | zero =>
      rw [Nat.zero_mul, List.drop_zero, List.flatten_cons, List.getD_cons_zero, ← hr,
        List.take_left]
    | succ k =>
      have hdrop : ((r ++ rest.flatten).drop ((k + 1) * n)) = rest.flatten.drop (k * n) := by
        rw [show (k + 1) * n = r.length + k * n by rw [hr]; ring]
        exact List.drop_append _
      rw [List.flatten_cons, hdrop]
      have := ih (fun l hm => h l (List.mem_cons_of_mem _ hm)) k (by simpa using hk)
      simpa using this

theorem indexSelect0_batchRow (t : Tensor) (idx : List Nat) (k i : Nat)
    (hk : idx.get? k = some i) (hin : ∀ j ∈ idx, j < t.size 0) (hwf : t.wf) :
    (indexSelect0 t idx).batchRow k = t.batchRow i := by
  have hrow : ∀ r ∈ idx.map (fun j => t.batchRow j), r.length = t.rowSize := by
    intro r hr
    rcases List.mem_map.mp hr with ⟨j, hj, rfl⟩
    have hj0 : j < t.size 0 := hin j hj
    have key : j * t.rowSize + t.rowSize ≤ t.data.length := by
      cases hs : t.shape with
      | nil =>
        exfalso
        rw [Tensor.size, hs] at hj0
        simp at hj0
      | cons s0 restSh =>
        have hlen : t.data.length = s0 * restSh.prod := by
          rw [hwf, hs, List.prod_cons]
        have hsz : t.size 0 = s0 := by simp [Tensor.size, hs]
        have hrs : t.rowSize = restSh.prod := by simp [Tensor.rowSize, hs]
        rw [hlen, hrs]
        have hj1 : j + 1 ≤ s0 := by rw [hsz] at hj0; omega
        calc j * restSh.prod + restSh.prod = (j + 1) * restSh.prod := by ring
          _ ≤ s0 * restSh.prod := Nat.mul_le_mul_right _ hj1
    simp only [Tensor.batchRow, List.length_take, List.length_drop]
    omega
  have hklt : k < idx.length := by
    by_contra hge
    rw [List.get?_eq_none.mpr (by omega)] at hk
    exact Option.noConfusion hk
  have hsame : (indexSelect0 t idx).rowSize = t.rowSize := by
    simp [indexSelect0, Tensor.rowSize]
  show ((indexSelect0 t idx).data.drop (k * (indexSelect0 t idx).rowSize)).take
      (indexSelect0 t idx).rowSize = t.batchRow i
  rw [hsame]
  show (((idx.map (fun j => t.batchRow j)).flatten.drop (k * t.rowSize)).take t.rowSize)
      = t.batchRow i
  rw [flatten_drop_take hrow k (by simpa using hklt)]
  have hget : (idx.map (fun j => t.batchRow j)).get? k = some (t.batchRow i) := by
    rw [List.get?_map, hk]
    rfl
  rw [List.getD_eq_get?, hget]
  rfl

/-
Claim theorems.
-/

/-- Claim C2: the decoder flattens the per-layer cache into a flat sequence
before binding and regroups the flat cache outputs into consecutive per-layer
4-tuples; for every cache whose layers are 4-tuples and any layer count at
least 1, flattening then regrouping reproduces the original structure. -/
theorem claim_C2 (past : List (List Tensor)) (_hlen : 1 ≤ past.length)
    (h4 : ∀ layer ∈ past, layer.length = 4) :
    chunk4 (flattenCache past) = past :=
  chunk4_flattenCache past h4

theorem claim_C2_witness :
    1 ≤ ([[wKv, wKv2, wKv3, wKv4]] : List (List Tensor)).length
    ∧ (∀ layer ∈ ([[wKv, wKv2, wKv3, wKv4]] : List (List Tensor)), layer.length = 4)
    ∧ chunk4 (flattenCache [[wKv, wKv2, wKv3, wKv4]]) = [[wKv, wKv2, wKv3, wKv4]] :=
  ⟨by decide, by decide, claim_C2 _ (by decide) (by decide)⟩

/-- Claim C3: for every cache and every batch-index permutation,
`_reorder_cache` re-indexes the batch axis (axis 0) of exactly the first two
tensors of each layer tuple by the permutation and returns the remaining
tensors unchanged; `indexSelect0` itself moves row `idx[k]` of the input to
row `k` of the output. -/
theorem claim_C3 :
    (∀ (past : List (List Tensor)) (beam_idx : List Nat) (l : Nat) (layer : List Tensor),
      past.get? l = some layer →
      (ORTModelForSeq2SeqLM._reorder_cache past beam_idx).get? l
        = some ((layer.take 2).map (fun t => indexSelect0 t beam_idx) ++ layer.drop 2))
    ∧ (∀ (t : Tensor) (beam_idx : List Nat) (k i : Nat),
      beam_idx.get? k = some i →
      (∀ j ∈ beam_idx, j < t.size 0) →
      t.wf →
      (indexSelect0 t beam_idx).batchRow k = t.batchRow i) := by
  constructor
  · intro past beam_idx l layer hl
    rw [ORTModelForSeq2SeqLM._reorder_cache, List.get?_map, hl]
    rfl
  · exact indexSelect0_batchRow

theorem claim_C3_witness :
    (ORTModelForSeq2SeqLM._reorder_cache [[wB4a, wB4b, wB4c, wB4d]] [2, 0, 3, 1]).get? 0
      = some [indexSelect0 wB4a [2, 0, 3, 1], indexSelect0 wB4b [2, 0, 3, 1], wB4c, wB4d]
    ∧ (indexSelect0 wB4a [2, 0, 3, 1]).batchRow 0 = wB4a.batchRow 2 :=
  ⟨claim_C3.1 [[wB4a, wB4b, wB4c, wB4d]] [2, 0, 3, 1] 0 [wB4a, wB4b, wB4c, wB4d] rfl,
   claim_C3.2 wB4a [2, 0, 3, 1] 0 2 (by decide) (by decide) (by decide)⟩

/-- Claim C5: every self-attention key/value output buffer is planned with
shape (batch, num_attention_heads, seq_len + past_len when a past is present
else seq_len, head_dim) with head_dim = hidden_size / num_attention_heads
(integer division), and every cross-attention key/value buffer with shape
(batch, num_attention_heads, encoder_sequence_length, head_dim), independent
of the decoding step. -/
theorem claim_C5 (d : ORTDecoder) (name : String) (b s e p : Nat)
    (hkv : isKVName name = true) :
    d.prepare_output_buffer name (some b) (some s) none (some p) true
      = some [b, d.config.num_attention_heads, s + p,
              d.config.hidden_size / d.config.num_attention_heads]
    ∧ d.prepare_output_buffer name (some b) (some s) none none true
      = some [b, d.config.num_attention_heads, s,
              d.config.hidden_size / d.config.num_attention_heads]
    ∧ d.prepare_output_buffer name (some b) none (some e) none false
      = some [b, d.config.num_attention_heads, e,
              d.config.hidden_size / d.config.num_attention_heads] := by
  have hl : name ≠ "loss" := by
    rintro rfl
    exact absurd hkv (by decide)
  have hg : name ≠ "logits" := by
    rintro rfl
    exact absurd hkv (by decide)
  refine ⟨?_, ?_, ?_⟩ <;>
    simp [ORTDecoder.prepare_output_buffer, hl, hg, hkv]

theorem claim_C5_witness :
    isKVName "present.0.decoder.key" = true
    ∧ wDecoder.prepare_output_buffer "present.0.decoder.key" (some 2) (some 3) none (some 7) true
        = some [2, 1, 10, 1]
    ∧ wDecoder.prepare_output_buffer "present.0.decoder.key" (some 2) (some 3) none none true
        = some [2, 1, 3, 1]
    ∧ wDecoder.prepare_output_buffer "present.0.decoder.key" (some 2) none (some 5) none false
        = some [2, 1, 5, 1] := by
  have h := claim_C5 wDecoder "present.0.decoder.key" 2 3 5 7 (by decide)
  exact ⟨by decide, h.1, h.2.1, h.2.2⟩

/-- Claim C7: the logits buffer planners return shape (batch, num_labels) for
sequence classification, (batch, seq_len, num_labels) for token
classification and (batch, num_choices) for multiple choice, for all valid
inputs; in particular (1, 2), (2, 5, 9) and (1, 4) on the quoted scenario
inputs. -/
theorem claim_C7 :
    (∀ b n, ORTModelForSequenceClassification.prepare_logits_buffer b n = [b, n])
    ∧ (∀ b s n, ORTModelForTokenClassification.prepare_logits_buffer b s n = [b, s, n])
    ∧ (∀ b c, ORTModelForMultipleChoice.prepare_logits_buffer b c = [b, c])
    ∧ ORTModelForSequenceClassification.prepare_logits_buffer 1 2 = [1, 2]
    ∧ ORTModelForTokenClassification.prepare_logits_buffer 2 5 9 = [2, 5, 9]
    ∧ ORTModelForMultipleChoice.prepare_logits_buffer 1 4 = [1, 4] :=
  ⟨fun _ _ => rfl, fun _ _ _ => rfl, fun _ _ => rfl, rfl, rfl, rfl⟩

/-- Claim C1: a conditional-generation forward call with no past cache, or
with no decoder-with-past session loaded, invokes the cache-less decoder on
the full decoder_input_ids; otherwise it invokes the decoder-with-past on the
last token (sliced along axis 1) together with the prior cache.  A model
constructed without a decoder-with-past session has none, so every step goes
through the cache-less decoder. -/
theorem claim_C1 :
    (∀ (m : ORTModelForSeq2SeqLM)
      (input_ids attention_mask decoder_input_ids encoder_outputs : Option Tensor)
      (past_key_values : Option (List (List Tensor))) (labels : Option Tensor)
      (lhs dec_ids : Tensor),
      m.resolveEncoderOutputs input_ids attention_mask encoder_outputs = some lhs →
      decoder_input_ids = some dec_ids →
      ((past_key_values = none ∨ m.decoder_with_past = none →
          m.forward input_ids attention_mask decoder_input_ids encoder_outputs
              past_key_values labels
            = (m.decoder.forward dec_ids lhs attention_mask none labels).map
                (fun r => { loss := r.loss, logits := r.logits,
                            past_key_values := r.past_key_values }))
        ∧ ∀ (p : List (List Tensor)) (dwp : ORTDecoder),
          past_key_values = some p → m.decoder_with_past = some dwp →
          m.forward input_ids attention_mask decoder_input_ids encoder_outputs
              past_key_values labels
            = (dwp.forward (sliceLastCol dec_ids) lhs attention_mask (some p) labels).map
                (fun r => { loss := r.loss, logits := r.logits,
                            past_key_values := r.past_key_values })))
    ∧ (∀ (encS decS : Session) (cfg : NormalizedConfig) (uio cuda : Bool),
      (mkORTModelForSeq2SeqLM encS decS none cfg uio cuda).decoder_with_past = none
      ∧ (mkORTModelForSeq2SeqLM encS decS none cfg uio cuda).use_cache = false) := by
  constructor
  · intro m input_ids attention_mask decoder_input_ids encoder_outputs past labels
      lhs dec_ids hEnc hIds
    constructor
    · intro hcold
      rw [ORTModelForSeq2SeqLM.forward, hEnc, hIds]
      rcases hcold with hp | hd
      · subst hp
        cases hF : m.decoder.forward dec_ids lhs attention_mask none labels <;>
          simp [hF]
      · rw [hd]
        cases past <;>
          cases hF : m.decoder.forward dec_ids lhs attention_mask none labels <;>
            simp [hF]
    · intro p dwp hp hdwp
      rw [ORTModelForSeq2SeqLM.forward, hEnc, hIds, hp, hdwp]
      cases hF : dwp.forward (sliceLastCol dec_ids) lhs attention_mask (some p) labels <;>
        simp [hF]
  · intro encS decS cfg uio cuda
    exact ⟨rfl, rfl⟩

theorem claim_C1_witness :
    wSeq2Seq.decoder_with_past = some wDecoderFallback
    ∧ wSeq2Seq.forward none none (some wIds2) (some wEhs)
        (some [[wKv, wKv2, wKv3, wKv4]]) none
      = (wDecoderFallback.forward (sliceLastCol wIds2) wEhs none
          (some [[wKv, wKv2, wKv3, wKv4]]) none).map
          (fun r => { loss := r.loss, logits := r.logits,
                      past_key_values := r.past_key_values }) := by
  refine ⟨rfl, ?_⟩
  exact ((claim_C1.1 wSeq2Seq none none (some wIds2) (some wEhs)
      (some [[wKv, wKv2, wKv3, wKv4]]) none wEhs wIds2 rfl rfl).2)
    [[wKv, wKv2, wKv3, wKv4]] wDecoderFallback rfl rfl

theorem prepare_output_buffer_kv_shape (d : ORTDecoder) (name : String)
    (bs sl el pl : Option Nat) (isa : Bool) (sh : List Nat)
    (hkv : isKVName name = true)
    (h : d.prepare_output_buffer name bs sl el pl isa = some sh) :
    ∃ a b c e, sh = [a, b, c, e] := by
  have hl : name ≠ "loss" := by rintro rfl; exact absurd hkv (by decide)
  have hg : name ≠ "logits" := by rintro rfl; exact absurd hkv (by decide)
  rw [ORTDecoder.prepare_output_buffer, if_neg hl, if_neg hg, if_pos hkv] at h
  cases isa with
  | true =>
    cases bs with
    | none => simp at h
    | some b =>
      cases sl with
      | none => simp at h
      | some s =>
        cases pl with
        | none =>
          simp at h
          exact ⟨b, _, s, _, h.symm⟩
        | some p =>
          simp at h
          exact ⟨b, _, s + p, _, h.symm⟩
  | false =>
    cases bs with
    | none => simp at h
    | some b =>
      cases el with
      | none => simp at h
      | some e =>
        simp at h
        exact ⟨b, _, e, _, h.symm⟩

theorem bindSelfAndCross_entry (d : ORTDecoder) (b s el : Nat) (pl : Option Nat)
    (chunk : List String) (i : Nat) (entries : List OutputEntry)
    (h : d.bindSelfAndCross b s el pl chunk i = some entries) :
    ∀ entry ∈ entries, isKVName entry.name = true →
      ∃ x y z w, entry.alloc = [x, y, z, w]
        ∧ entry.recorded = [Int.ofNat x, Int.ofNat y, -1, Int.ofNat w] := by
  rw [ORTDecoder.bindSelfAndCross] at h
  simp only [Option.bind_eq_bind, Option.bind_eq_some, Option.pure_def,
    Option.some.injEq] at h
  obtain ⟨self_name, h1, self_shape, h2, cross_name, h3, cross_shape, h4, hE⟩ := h
  subst hE
  intro entry hmem hkv
  rcases List.mem_cons.mp hmem with hme | hme
  · subst hme
    obtain ⟨x, y, z, w, hsh⟩ :=
      prepare_output_buffer_kv_shape d self_name (some b) (some s) none pl
        true self_shape hkv h2
    subst hsh
    exact ⟨x, y, z, w, rfl, rfl⟩
  · rcases List.mem_cons.mp hme with hme2 | hme2
    · subst hme2
      obtain ⟨x, y, z, w, hsh⟩ :=
        prepare_output_buffer_kv_shape d cross_name (some b) none (some el) none
          false cross_shape hkv h4
      subst hsh
      exact ⟨x, y, z, w, rfl, rfl⟩
    · simp at hme2

theorem bindKvOutputs_entry (d : ORTDecoder) (b s el : Nat) (pl : Option Nat) :
    ∀ (chunks : List (List String)) (entries : List OutputEntry),
      d.bindKvOutputs b s el pl chunks = some entries →
      ∀ entry ∈ entries, isKVName entry.name = true →
        ∃ x y z w, entry.alloc = [x, y, z, w]
          ∧ entry.recorded = [Int.ofNat x, Int.ofNat y, -1, Int.ofNat w] := by
  intro chunks
  induction chunks with
  | nil =>
    intro entries h entry hmem
    rw [ORTDecoder.bindKvOutputs] at h
    injection h with h
    subst h
    simp at hmem
  | cons chunk rest ih =>
    intro entries h entry hmem hkv
    rw [ORTDecoder.bindKvOutputs] at h
    simp only [Option.bind_eq_bind, Option.bind_eq_some, Option.pure_def,
      Option.some.injEq] at h
    obtain ⟨e0, h0, e1, h1, es, h2, hE⟩ := h
    subst hE
    rcases List.mem_append.mp hmem with hm | hm
    · rcases List.mem_append.mp hm with hm2 | hm2
      · exact bindSelfAndCross_entry d b s el pl chunk 0 e0 h0 entry hm2 hkv
      · exact bindSelfAndCross_entry d b s el pl chunk 1 e1 h1 entry hm2 hkv
    · exact ih es h2 entry hm hkv

theorem planBaseEntries_names (d : ORTDecoder) (ls : List Nat)
    (entries : List OutputEntry) (h : d.planBaseEntries ls = some entries) :
    ∀ entry ∈ entries, entry.name = "logits" ∨ entry.name = "loss" := by
  simp only [ORTDecoder.planBaseEntries] at h
  by_cases hloss : "loss" ∈ d.session.outputNames
  · rw [if_pos hloss] at h
    simp only [Option.bind_eq_bind, Option.bind_eq_some, Option.pure_def,
      Option.some.injEq] at h
    obtain ⟨loss_shape, hls, hE⟩ := h
    subst hE
    intro entry hm
    simp only [List.cons_append, List.nil_append] at hm
    rcases List.mem_cons.mp hm with h1 | h1
    · left; rw [h1]
    · rcases List.mem_cons.mp h1 with h2 | h2
      · right; rw [h2]
      · simp at h2
  · rw [if_neg hloss] at h
    simp only [Option.pure_def, Option.some.injEq] at h
    subst h
    intro entry hm
    rcases List.mem_cons.mp hm with h1 | h1
    · left; rw [h1]
    · simp at h1

/-- Claim C6: for every key/value cache output planned on the IO-binding
path, the recorded shape replaces the sequence-length axis (axis 2) with the
unknown marker -1 while the other three axes keep their allocated values; the
concrete allocated length enters only the buffer size (the product of
`alloc`). -/
theorem claim_C6 (d : ORTDecoder) (input_ids encoder_hidden_states : Tensor)
    (encoder_attention_mask : Option Tensor) (past_key_values : Option (List Tensor))
    (labels : Option Tensor) (plan : IoPlan) (entry : OutputEntry)
    (hplan : d.prepare_io_binding input_ids encoder_hidden_states
        encoder_attention_mask past_key_values labels = some plan)
    (hmem : entry ∈ plan.outputEntries)
    (hkv : isKVName entry.name = true) :
    entry.alloc.length = 4 ∧ entry.recorded.length = 4
    ∧ entry.recorded.get? 2 = some (-1)
    ∧ entry.recorded.get? 0 = (entry.alloc.get? 0).map Int.ofNat
    ∧ entry.recorded.get? 1 = (entry.alloc.get? 1).map Int.ofNat
    ∧ entry.recorded.get? 3 = (entry.alloc.get? 3).map Int.ofNat := by
  rw [ORTDecoder.prepare_io_binding] at hplan
  simp only [Option.bind_eq_bind, Option.bind_eq_some, Option.pure_def,
    Option.some.injEq] at hplan
  obtain ⟨ins, hins, logits_shape, hlog, entries2, hent, kv, hkvp, hE⟩ := hplan
  subst hE
  rcases List.mem_append.mp hmem with hm | hm
  · exfalso
    rcases planBaseEntries_names d logits_shape entries2 hent entry hm with h1 | h1 <;>
      rw [h1] at hkv
    · exact absurd hkv (by decide)
    · exact absurd hkv (by decide)
  · obtain ⟨x, y, z, w, ha, hr⟩ := bindKvOutputs_entry d _ _ _ _ _ kv hkvp
      entry hm hkv
    rw [ha, hr]
    exact ⟨rfl, rfl, rfl, rfl, rfl, rfl⟩

theorem claim_C6_witness :
    wEntryC6.alloc.length = 4 ∧ wEntryC6.recorded.length = 4
    ∧ wEntryC6.recorded.get? 2 = some (-1)
    ∧ wEntryC6.recorded.get? 0 = (wEntryC6.alloc.get? 0).map Int.ofNat
    ∧ wEntryC6.recorded.get? 1 = (wEntryC6.alloc.get? 1).map Int.ofNat
    ∧ wEntryC6.recorded.get? 3 = (wEntryC6.alloc.get? 3).map Int.ofNat :=
  claim_C6 wDecoder wIds wEhs none none none wPlanC6 wEntryC6
    (by decide) (by decide) (by decide)

/-- Claim C8 counterexample: the sequence-classification runner includes a
supplied `token_type_ids` in the fallback input set even though the session
does not declare that input name, refuting "an input name is bound (or
included in the fallback input set) only if it is present in the target
session's declared input set".  (On the bound path the same call fails at the
element-type lookup instead of binding the undeclared name.) -/
theorem claim_C8_counterexample :
    ORTModelForSequenceClassification.fallbackInputs wCls (some wIds) (some wIds2) (some wKv)
      = some [("input_ids", wIds), ("attention_mask", wIds2), ("token_type_ids", wKv)]
    ∧ "token_type_ids" ∉ wCls.session.inputNames
    ∧ ORTModelForSequenceClassification.prepare_io_binding wCls (some wIds) (some wIds2)
        (some wKv) = none := by
  decide

/-- Claim C8 (amended): on the bound path an input name is bound only if the
session declares it — for the encoder, `attention_mask` is bound exactly when
declared; for the sequence-classification runner, a supplied `token_type_ids`
is bound only when declared, and binding it for an undeclared name fails at
the element-type lookup instead of silently binding.  On the fallback path
the sequence-classification runner includes a supplied `token_type_ids` in
the input set regardless of the declared input set.  An absent optional input
(`token_type_ids` not supplied, or `attention_mask` not declared for the
encoder) is silently skipped and never raises, on both paths. -/
theorem claim_C8 :
    (∀ (e : ORTEncoder) (input_ids attention_mask : Option Tensor) (ii : Tensor),
      input_ids = some ii →
      "attention_mask" ∉ e.session.inputNames →
      e.fallbackInputs input_ids attention_mask = some [("input_ids", ii)]
      ∧ ("input_ids" ∈ e.session.inputNames →
        "last_hidden_state" ∈ e.session.outputNames →
        (e.prepare_io_binding input_ids attention_mask).map IoPlan.boundInputs
          = some [("input_ids", ii)]))
    ∧ (∀ (e : ORTEncoder) (input_ids attention_mask : Option Tensor) (ii am : Tensor),
      input_ids = some ii → attention_mask = some am →
      "attention_mask" ∈ e.session.inputNames →
      e.fallbackInputs input_ids attention_mask
          = some [("input_ids", ii), ("attention_mask", am)]
      ∧ ("input_ids" ∈ e.session.inputNames →
        "last_hidden_state" ∈ e.session.outputNames →
        (e.prepare_io_binding input_ids attention_mask).map IoPlan.boundInputs
          = some [("input_ids", ii), ("attention_mask", am)]))
    ∧ (∀ (m : ORTModelForSequenceClassification) (ii am : Tensor),
      m.fallbackInputs (some ii) (some am) none
          = some [("input_ids", ii), ("attention_mask", am)]
      ∧ ("input_ids" ∈ m.session.inputNames →
        "attention_mask" ∈ m.session.inputNames →
        "logits" ∈ m.session.outputNames →
        (m.prepare_io_binding (some ii) (some am) none).map IoPlan.boundInputs
          = some [("input_ids", ii), ("attention_mask", am)]))
    ∧ (∀ (m : ORTModelForSequenceClassification) (ii am tt : Tensor),
      m.fallbackInputs (some ii) (some am) (some tt)
          = some [("input_ids", ii), ("attention_mask", am), ("token_type_ids", tt)]
      ∧ ("token_type_ids" ∈ m.session.inputNames ++ m.session.outputNames →
        "input_ids" ∈ m.session.inputNames →
        "attention_mask" ∈ m.session.inputNames →
        "logits" ∈ m.session.outputNames →
        (m.prepare_io_binding (some ii) (some am) (some tt)).map IoPlan.boundInputs
          = some [("input_ids", ii), ("attention_mask", am), ("token_type_ids", tt)])
      ∧ ("token_type_ids" ∉ m.session.inputNames ++ m.session.outputNames →
        m.prepare_io_binding (some ii) (some am) (some tt) = none)) := by
  refine ⟨?_, ?_, ?_, ?_⟩
  · intro e input_ids attention_mask ii hi hnot
    subst hi
    constructor
    · simp [ORTEncoder.fallbackInputs, hnot]
    · intro h1 h2
      simp [ORTEncoder.prepare_io_binding, hnot, nameToNpType, List.mem_append, h1, h2]
  · intro e input_ids attention_mask ii am hi ha hmem
    subst hi
    subst ha
    constructor
    · simp [ORTEncoder.fallbackInputs, hmem]
    · intro h1 h2
      simp [ORTEncoder.prepare_io_binding, hmem, nameToNpType, List.mem_append, h1, h2]
  · intro m ii am
    constructor
    · rfl
    · intro h1 h2 h3
      simp [ORTModelForSequenceClassification.prepare_io_binding, bindTokenTypeIds,
        nameToNpType, List.mem_append, h1, h2, h3]
  · intro m ii am tt
    refine ⟨rfl, ?_, ?_⟩
    · intro htt h1 h2 h3
      simp [ORTModelForSequenceClassification.prepare_io_binding, bindTokenTypeIds,
        nameToNpType, List.mem_append, List.mem_append.mp htt, h1, h2, h3]
    · intro htt
      have htt0 : nameToNpType m.session "token_type_ids" = none := by
        rw [nameToNpType, if_neg htt]
      cases h1 : nameToNpType m.session "input_ids" with
      | none =>
        simp [ORTModelForSequenceClassification.prepare_io_binding, h1]
      | some u1 =>
        cases h2 : nameToNpType m.session "attention_mask" with
        | none =>
          simp [ORTModelForSequenceClassification.prepare_io_binding, h1, h2]
        | some u2 =>
          simp [ORTModelForSequenceClassification.prepare_io_binding, bindTokenTypeIds,
            h1, h2, htt0]

theorem claim_C8_witness :
    "attention_mask" ∉ wEncoder.session.inputNames
    ∧ wEncoder.fallbackInputs (some wIds) none = some [("input_ids", wIds)]
    ∧ (wEncoder.prepare_io_binding (some wIds) none).map IoPlan.boundInputs
        = some [("input_ids", wIds)]
    ∧ ORTModelForSequenceClassification.prepare_io_binding wCls (some wIds) (some wIds2)
        (some wKv) = none := by
  have h := claim_C8.1 wEncoder (some wIds) none wIds rfl (by decide)
  have h4 := ((claim_C8.2.2.2 wCls wIds wIds2 wKv).2.2) (by decide)
  exact ⟨by decide, h.1, h.2 (by decide) (by decide), h4⟩

theorem popKey_eq_none_iff (l : List (String × Tensor)) (n : String) :
    popKey l n = none ↔ n ∉ l.map Prod.fst := by
  induction l with
  | nil => simp [popKey]
  | cons p rest ih =>
    obtain ⟨k, v⟩ := p
    by_cases hk : k = n
    · subst hk
      simp [popKey]
    · rw [popKey, if_neg hk]
      constructor
      · intro h
        have hnone : popKey rest n = none := by
          cases hp : popKey rest n with
          | none => rfl
          | some q => rw [hp] at h; exact Option.noConfusion h
        have hnr := ih.mp hnone
        simp only [List.map_cons, List.mem_cons]
        rintro (hc | hc)
        · exact hk hc.symm
        · exact hnr hc
      · intro h
        have hnr : n ∉ rest.map Prod.fst := by
          simp only [List.map_cons, List.mem_cons] at h
          exact fun hc => h (Or.inr hc)
        rw [ih.mpr hnr]
        rfl

theorem popKey_keys_subset (l : List (String × Tensor)) (n : String)
    (t : Tensor) (l2 : List (String × Tensor)) (h : popKey l n = some (t, l2)) :
    ∀ x, x ∈ l2.map Prod.fst → x ∈ l.map Prod.fst := by
  induction l generalizing t l2 with
  | nil => exact Option.noConfusion h
  | cons p rest ih =>
    obtain ⟨k, v⟩ := p
    by_cases hk : k = n
    · subst hk
      rw [popKey, if_pos rfl] at h
      injection h with h
      injection h with h1 h2
      subst h1
      subst h2
      intro x hx
      exact List.mem_cons_of_mem _ hx
    · rw [popKey, if_neg hk] at h
      cases hrec : popKey rest n with
      | none => rw [hrec] at h; exact Option.noConfusion h
      | some q =>
        obtain ⟨t2, l3⟩ := q
        rw [hrec] at h
        injection h with h
        injection h with h1 h2
        subst h1
        subst h2
        intro x hx
        simp only [List.map_cons, List.mem_cons] at hx ⊢
        rcases hx with hx | hx
        · exact Or.inl hx
        · exact Or.inr (ih t2 l3 hrec x hx)

theorem popKey_keys_preserved (l : List (String × Tensor)) (n : String)
    (t : Tensor) (l2 : List (String × Tensor)) (h : popKey l n = some (t, l2)) :
    ∀ x, x ≠ n → x ∈ l.map Prod.fst → x ∈ l2.map Prod.fst := by
  induction l generalizing t l2 with
  | nil => exact Option.noConfusion h
  | cons p rest ih =>
    obtain ⟨k, v⟩ := p
    by_cases hk : k = n
    · subst hk
      rw [popKey, if_pos rfl] at h
      injection h with h
      injection h with h1 h2
      subst h1
      subst h2
      intro x hne hx
      simp only [List.map_cons, List.mem_cons] at hx
      rcases hx with hx | hx
      · exact absurd hx hne
      · exact hx
    · rw [popKey, if_neg hk] at h
      cases hrec : popKey rest n with
      | none => rw [hrec] at h; exact Option.noConfusion h
      | some q =>
        obtain ⟨t2, l3⟩ := q
        rw [hrec] at h
        injection h with h
        injection h with h1 h2
        subst h1
        subst h2
        intro x hne hx
        simp only [List.map_cons, List.mem_cons] at hx ⊢
        rcases hx with hx | hx
        · exact Or.inl hx
        · exact Or.inr (ih t2 l3 hrec x hne hx)

theorem prepareInputsGo_missing :
    ∀ (names : List String) (kwargs : List (String × Tensor)) (n : String),
      n ∈ names → n ∉ kwargs.map Prod.fst →
      isMissingInputError (prepareInputsGo names kwargs) = true := by
  intro names
  induction names with
  | nil =>
    intro kwargs n hn
    simp at hn
  | cons n1 rest ih =>
    intro kwargs n hn hnk
    cases hpop : popKey kwargs n1 with
    | none =>
      rw [prepareInputsGo, hpop]
      rfl
    | some p =>
      obtain ⟨t, k2⟩ := p
      have hne : n ≠ n1 := by
        rintro rfl
        rw [(popKey_eq_none_iff kwargs n).mpr hnk] at hpop
        exact Option.noConfusion hpop
      have hn2 : n ∈ rest := by
        rcases List.mem_cons.mp hn with h | h
        · exact absurd h hne
        · exact h
      have hnk2 : n ∉ k2.map Prod.fst := fun hx =>
        hnk (popKey_keys_subset kwargs n1 t k2 hpop n hx)
      have hrec := ih k2 n hn2 hnk2
      rw [prepareInputsGo, hpop]
      show isMissingInputError
        ((prepareInputsGo rest k2).map (fun l => (n1, t) :: l)) = true
      cases hr : prepareInputsGo rest k2 with
      | error e =>
        rw [hr] at hrec
        cases e with
        | missingInput n2 => rfl
        | outputIndexOutOfRange => exact Bool.noConfusion hrec
      | ok l =>
        rw [hr] at hrec
        exact Bool.noConfusion hrec

theorem prepareInputsGo_ok :
    ∀ (names : List String) (kwargs : List (String × Tensor)),
      names.Nodup → (∀ n ∈ names, n ∈ kwargs.map Prod.fst) →
      okInputKeys (prepareInputsGo names kwargs) = some names := by
  intro names
  induction names with
  | nil => intro kwargs _ _; rfl
  | cons n1 rest ih =>
    intro kwargs hnd hall
    have h1 : n1 ∈ kwargs.map Prod.fst := hall n1 (List.mem_cons_self _ _)
    cases hpop : popKey kwargs n1 with
    | none => exact absurd ((popKey_eq_none_iff kwargs n1).mp hpop) (by simp [h1])
    | some p =>
      obtain ⟨t, k2⟩ := p
      obtain ⟨hn1notin, hnd2⟩ := List.nodup_cons.mp hnd
      have hall2 : ∀ n ∈ rest, n ∈ k2.map Prod.fst := by
        intro n hn
        have hne : n ≠ n1 := fun he => hn1notin (he ▸ hn)
        exact popKey_keys_preserved kwargs n1 t k2 hpop n hne
          (hall n (List.mem_cons_of_mem _ hn))
      have hrec := ih k2 hnd2 hall2
      rw [prepareInputsGo, hpop]
      show okInputKeys ((prepareInputsGo rest k2).map (fun l => (n1, t) :: l))
        = some (n1 :: rest)
      cases hr : prepareInputsGo rest k2 with
      | error e =>
        rw [hr] at hrec
        exact Option.noConfusion hrec
      | ok l =>
        rw [hr] at hrec
        injection hrec with hrec
        show some (n1 :: l.map Prod.fst) = some (n1 :: rest)
        rw [hrec]

/-- Claim C9: the custom-task runner discovers its required input names from
the loaded graph's declared input signature; a forward call missing any
declared input name fails with the missing-input error (the model is pure, so
no session state is touched), and a call supplying every declared name feeds
the graph exactly the declared names. -/
theorem claim_C9 (m : ORTModelForCustomTasks) (kwargs : List (String × Tensor)) :
    (∀ n, n ∈ m.session.inputNames → n ∉ kwargs.map Prod.fst →
      isMissingInputError (m.forward kwargs) = true)
    ∧ (m.session.inputNames.Nodup →
      (∀ n ∈ m.session.inputNames, n ∈ kwargs.map Prod.fst) →
      okInputKeys (m._prepare_onnx_inputs kwargs) = some m.session.inputNames) := by
  constructor
  · intro n hn hnk
    have h := prepareInputsGo_missing m.session.inputNames kwargs n hn hnk
    rw [ORTModelForCustomTasks.forward]
    cases hr : m._prepare_onnx_inputs kwargs with
    | error e =>
      rw [ORTModelForCustomTasks._prepare_onnx_inputs] at hr
      rw [hr] at h
      exact h
    | ok l =>
      rw [ORTModelForCustomTasks._prepare_onnx_inputs] at hr
      rw [hr] at h
      exact Bool.noConfusion h
  · intro hnd hall
    exact prepareInputsGo_ok m.session.inputNames kwargs hnd hall

theorem claim_C9_witness :
    isMissingInputError (wCustom.forward []) = true
    ∧ okInputKeys (wCustom._prepare_onnx_inputs
        [("input_ids", wIds), ("attention_mask", wIds2)])
      = some wCustom.session.inputNames := by
  constructor
  · exact (claim_C9 wCustom []).1 "input_ids" (by decide) (by decide)
  · exact (claim_C9 wCustom [("input_ids", wIds), ("attention_mask", wIds2)]).2
      (by decide) (by decide)

theorem fallbackInputs_eq_bindInputs (d : ORTDecoder)
    (input_ids encoder_hidden_states : Tensor) (encoder_attention_mask : Option Tensor)
    (past_key_values : Option (List Tensor)) (labels : Option Tensor) :
    d.fallbackInputs input_ids encoder_hidden_states encoder_attention_mask
        past_key_values labels
      = d.bindInputs input_ids encoder_hidden_states encoder_attention_mask
          past_key_values labels := rfl

theorem prepare_io_binding_inputs (d : ORTDecoder)
    (input_ids encoder_hidden_states : Tensor) (encoder_attention_mask : Option Tensor)
    (past_key_values : Option (List Tensor)) (labels : Option Tensor) (plan : IoPlan)
    (h : d.prepare_io_binding input_ids encoder_hidden_states encoder_attention_mask
        past_key_values labels = some plan) :
    d.bindInputs input_ids encoder_hidden_states encoder_attention_mask
        past_key_values labels = some plan.boundInputs := by
  rw [ORTDecoder.prepare_io_binding] at h
  simp only [Option.bind_eq_bind, Option.bind_eq_some, Option.pure_def,
    Option.some.injEq] at h
  obtain ⟨ins, hins, ls, hlog, es, hes, kv, hkvp, hE⟩ := h
  rw [hins, ← hE]

theorem planConsistentB_spec (plan : IoPlan) (names : List String) (outs : List Tensor)
    (name : String) (h : planConsistentB plan names outs name = true) :
    ∃ e out i, lookupEntry plan.outputEntries name = some e
      ∧ nameIndex names name = some i
      ∧ outs.get? i = some out
      ∧ bufferView e.alloc.prod out.data e.recorded = some out := by
  rw [planConsistentB] at h
  cases hp : planOutput? plan names outs name with
  | none => rw [hp] at h; exact Bool.noConfusion h
  | some p =>
    obtain ⟨e0, out0⟩ := p
    rw [hp] at h
    simp only [Bool.and_eq_true, beq_iff_eq] at h
    obtain ⟨⟨h1, h2⟩, h3⟩ := h
    rw [planOutput?] at hp
    simp only [Option.bind_eq_bind, Option.bind_eq_some, Option.pure_def,
      Option.some.injEq, Prod.mk.injEq] at hp
    obtain ⟨e2, he, i, hi, out2, ho, hE1, hE2⟩ := hp
    subst hE1
    subst hE2
    refine ⟨e2, out2, i, he, hi, ho, ?_⟩
    rw [bufferView, if_pos ⟨h1, h3⟩, h2]

theorem optListMap_congr {α β : Type u} (f g : α → Option β) (l : List α)
    (h : ∀ a ∈ l, f a = g a) : optListMap f l = optListMap g l := by
  induction l with
  | nil => rfl
  | cons a rest ih =>
    simp only [optListMap, h a (List.mem_cons_self _ _),
      ih (fun x hx => h x (List.mem_cons_of_mem _ hx))]

theorem consistent_step_eq (plan : IoPlan) (names : List String) (outs : List Tensor)
    (name : String) (h : planConsistentB plan names outs name = true) :
    (do
      let e ← lookupEntry plan.outputEntries name
      let i ← nameIndex names name
      let out ← outs.get? i
      bufferView e.alloc.prod out.data e.recorded)
    = (do
      let i ← nameIndex names name
      outs.get? i : Option Tensor) := by
  obtain ⟨e, out, i, he, hi, ho, hb⟩ := planConsistentB_spec plan names outs name h
  simp only [he, hi, ho, Option.bind_eq_bind, Option.some_bind]
  rw [hb]

theorem withTokenTypeIds_of_bind (s : Session) (ins ins2 : List (String × Tensor))
    (token_type_ids : Option Tensor)
    (h : bindTokenTypeIds s ins token_type_ids = some ins2) :
    withTokenTypeIds ins token_type_ids = ins2 := by
  cases token_type_ids with
  | none =>
    injection h
  | some tt =>
    rw [bindTokenTypeIds] at h
    cases hl : nameToNpType s "token_type_ids" with
    | none => rw [hl] at h; exact Option.noConfusion h
    | some u =>
      rw [hl] at h
      injection h

theorem seqcls_prepare_io_binding_inputs (m : ORTModelForSequenceClassification)
    (input_ids attention_mask token_type_ids : Option Tensor) (plan : IoPlan)
    (h : m.prepare_io_binding input_ids attention_mask token_type_ids = some plan) :
    m.fallbackInputs input_ids attention_mask token_type_ids
      = some plan.boundInputs := by
  rw [ORTModelForSequenceClassification.prepare_io_binding] at h
  simp only [Option.bind_eq_bind, Option.bind_eq_some, Option.pure_def,
    Option.some.injEq] at h
  obtain ⟨ii, hii, u1, hu1, am, ham, u2, hu2, ins, hins, u3, hu3, hE⟩ := h
  rw [ORTModelForSequenceClassification.fallbackInputs]
  simp only [hii, ham, Option.bind_eq_bind, Option.some_bind, Option.pure_def]
  rw [withTokenTypeIds_of_bind m.session _ ins token_type_ids hins, ← hE]

/-- Claim C4: given that the loaded graph's outputs are consistent with the
planned output buffers (each planned output exists, fills its buffer exactly,
and reading the buffer back through the recorded view shape reproduces the
output), the IO-binding branch and the no-binding fallback branch of a
forward pass compute the same result on identical inputs — for the decoder
forward and for the sequence-classification forward. -/
theorem claim_C4 :
    (∀ (d : ORTDecoder) (input_ids encoder_hidden_states : Tensor)
      (encoder_attention_mask : Option Tensor) (past_key_values : Option (List Tensor))
      (labels : Option Tensor) (plan : IoPlan),
      d.prepare_io_binding input_ids encoder_hidden_states encoder_attention_mask
          past_key_values labels = some plan →
      (∀ name ∈ "logits" :: d.key_value_output_names,
        planConsistentB plan d.session.outputNames
          (d.session.run plan.boundInputs) name = true) →
      ("loss" ∈ d.session.outputNames →
        planConsistentB plan d.session.outputNames
          (d.session.run plan.boundInputs) "loss" = true) →
      d.forwardBound input_ids encoder_hidden_states encoder_attention_mask
          past_key_values labels
        = d.forwardFallback input_ids encoder_hidden_states encoder_attention_mask
            past_key_values labels)
    ∧ (∀ (m : ORTModelForSequenceClassification)
      (input_ids attention_mask token_type_ids : Option Tensor) (plan : IoPlan),
      m.prepare_io_binding input_ids attention_mask token_type_ids = some plan →
      planConsistentB plan m.session.outputNames
        (m.session.run plan.boundInputs) "logits" = true →
      m.forwardBound input_ids attention_mask token_type_ids
        = m.forwardFallback input_ids attention_mask token_type_ids) := by
  constructor
  · intro d input_ids encoder_hidden_states encoder_attention_mask past_key_values
      labels plan hplan hkv hloss
    have hbind := prepare_io_binding_inputs d input_ids encoder_hidden_states
      encoder_attention_mask past_key_values labels plan hplan
    have hfb : d.fallbackInputs input_ids encoder_hidden_states
        encoder_attention_mask past_key_values labels = some plan.boundInputs := by
      rw [fallbackInputs_eq_bindInputs]
      exact hbind
    rw [ORTDecoder.forwardBound, ORTDecoder.forwardFallback, hplan, hfb]
    simp only [Option.bind_eq_bind, Option.some_bind]
    have hmap := optListMap_congr
      (fun name => do
        let e ← lookupEntry plan.outputEntries name
        let i ← nameIndex d.session.outputNames name
        let out ← (d.session.run plan.boundInputs).get? i
        bufferView e.alloc.prod out.data e.recorded)
      (fun name => do
        let i ← nameIndex d.session.outputNames name
        (d.session.run plan.boundInputs).get? i)
      d.key_value_output_names
      (fun name hm => consistent_step_eq plan d.session.outputNames
        (d.session.run plan.boundInputs) name (hkv name (List.mem_cons_of_mem _ hm)))
    simp only [Option.bind_eq_bind] at hmap
    rw [hmap]
    cases hkvflat : optListMap (fun name =>
        (nameIndex d.session.outputNames name).bind fun i =>
          (d.session.run plan.boundInputs).get? i) d.key_value_output_names with
    | none => rfl
    | some kvFlat =>
      simp only [Option.some_bind]
      obtain ⟨eL, outL, iL, heL, hiL, hoL, hbL⟩ := planConsistentB_spec plan
        d.session.outputNames (d.session.run plan.boundInputs) "logits"
        (hkv "logits" (List.mem_cons_self _ _))
      simp only [heL, hiL, hoL, hbL, Option.pure_def, Option.some_bind]
      by_cases hl : "loss" ∈ d.session.outputNames
      · obtain ⟨eS, outS, iS, heS, hiS, hoS, hbS⟩ := planConsistentB_spec plan
          d.session.outputNames (d.session.run plan.boundInputs) "loss" (hloss hl)
        simp only [if_pos hl, heS, hiS, hoS, hbS, Option.pure_def, Option.some_bind]
      · simp only [if_neg hl, Option.pure_def, Option.some_bind]
  · intro m input_ids attention_mask token_type_ids plan hplan hcons
    have hfb := seqcls_prepare_io_binding_inputs m input_ids attention_mask
      token_type_ids plan hplan
    rw [ORTModelForSequenceClassification.forwardBound,
      ORTModelForSequenceClassification.forwardFallback, hplan, hfb]
    simp only [Option.bind_eq_bind, Option.some_bind]
    obtain ⟨e, out, i, he, hi, ho, hb⟩ := planConsistentB_spec plan
      m.session.outputNames (m.session.run plan.boundInputs) "logits" hcons
    simp only [he, hi, ho, hb, Option.pure_def, Option.some_bind]

theorem claim_C4_witness :
    wDecoder.forwardBound wIds wEhs none none none
      = wDecoder.forwardFallback wIds wEhs none none none
    ∧ wCls.forwardBound (some wIds) (some wIds2) none
      = wCls.forwardFallback (some wIds) (some wIds2) none := by
  constructor
  · exact claim_C4.1 wDecoder wIds wEhs none none none wPlanC6 (by decide) (by decide)
      (fun h => absurd h (by decide))
  · exact claim_C4.2 wCls (some wIds) (some wIds2) none wPlanCls (by decide) (by decide)

/-- Claim C10: the custom-task runner's forward never takes an IO-binding
path — its result does not depend on the `use_io_binding` construction
keyword at all — and constructing it with `use_io_binding=True` only emits
the warning. -/
theorem claim_C10 (session : Session) (kw kw2 : Option Bool)
    (kwargs : List (String × Tensor)) :
    (ORTModelForCustomTasks.init session kw).1.forward kwargs
      = (ORTModelForCustomTasks.init session kw2).1.forward kwargs
    ∧ (ORTModelForCustomTasks.init session (some true)).2 = true
    ∧ (ORTModelForCustomTasks.init session none).2 = false
    ∧ (ORTModelForCustomTasks.init session (some false)).2 = false :=
  ⟨rfl, rfl, rfl, rfl⟩

end ORT
